import Mathlib

/-!
Verification of the Vantrue dashcam movie maker (src/main.py, src/ffmpeg/).

The development shallowly embeds the parts of the program the claims are
about:

* timestamp parsing from file names (`datetime_from_file_name`, main.py
  lines 27-30), modelling the fixed-width `YYYYMMDD_HHMMSS` format of
  `datetime.strptime`;
* the duration probe (`PROBE.get_media_duration`, probe.py lines 64-86),
  with the process exit code and its standard output as explicit inputs;
* the grouping scan (`get_videos`, main.py lines 317-340) together with
  `VideoGroup.add_video` (lines 134-144) and `VideoGroup.__init__`;
* the batching and rendering of a group (`VideoGroup.make_video`,
  lines 173-252), with encoder exit codes as an explicit oracle;
* the render loop of `__main__` (lines 343-350);
* the `FFMPEG.concat` filter builder (ffmpeg.py lines 620-646).

Timestamps are represented as seconds on a proleptic Gregorian day count
(Hinnant's civil-from-days algorithm); only differences and comparisons of
timestamps are ever used, so the choice of epoch is immaterial.
-/

namespace Vantrue

/-! ## Timestamps -/

/-- Leap year test of the Gregorian calendar (as `datetime` validates dates). -/
def isLeap (y : Nat) : Bool :=
  (y % 4 == 0 && y % 100 != 0) || y % 400 == 0

/-- Number of days of month `m` in year `y`. -/
def daysInMonth (y m : Nat) : Nat :=
  if m == 2 then (if isLeap y then 29 else 28)
  else if m == 4 || m == 6 || m == 9 || m == 11 then 30
  else 31

/-- Day count of a civil date (valid for years from 1 on, where every
intermediate quantity stays non-negative); Hinnant's days-from-civil
algorithm without the epoch shift, which cancels in every difference and
comparison of timestamps. -/
def daysFromCivil (y m d : Nat) : Nat :=
  let y' := y - (if m ≤ 2 then 1 else 0)
  let era := y' / 400
  let yoe := y' - era * 400
  let doy := (153 * (if m > 2 then m - 3 else m + 9) + 2) / 5 + d - 1
  let doe := yoe * 365 + yoe / 4 - yoe / 100 + doy
  era * 146097 + doe

/-- Timestamp (in seconds) of a date and time of day. -/
def toTimestamp (y mo d h mi s : Nat) : Int :=
  Int.ofNat (daysFromCivil y mo d * 86400 + h * 3600 + mi * 60 + s)

/-! ## Timestamp parsing (`datetime_from_file_name`, main.py lines 27-30) -/

/-- Value of a decimal digit character. -/
def digitVal (c : Char) : Nat := c.toNat - 48

/-- Value of a list of decimal digit characters. -/
def digitsVal (cs : List Char) : Nat :=
  cs.foldl (fun a c => a * 10 + digitVal c) 0

/-- Parse of the fixed-width `YYYYMMDD_HHMMSS` timestamp used by
`datetime.datetime.strptime(s, "%Y%m%d_%H%M%S")` on the dashcam's
fixed-width file names: four digit year (at least 1, as `datetime`
demands), two digit month, day, hour, minute and second, separated by one
underscore, with the ranges `datetime` validates. Returns `none` exactly
when `strptime` raises. -/
def parse_datetime (s : List Char) : Option Int :=
  match s with
  | [y1, y2, y3, y4, mo1, mo2, d1, d2, u, h1, h2, mi1, mi2, s1, s2] =>
    if ([y1, y2, y3, y4, mo1, mo2, d1, d2, h1, h2, mi1, mi2, s1, s2].all
        Char.isDigit) && u == '_' then
      let y := digitsVal [y1, y2, y3, y4]
      let mo := digitsVal [mo1, mo2]
      let d := digitsVal [d1, d2]
      let h := digitsVal [h1, h2]
      let mi := digitsVal [mi1, mi2]
      let sec := digitsVal [s1, s2]
      if 1 ≤ y && 1 ≤ mo && mo ≤ 12 && 1 ≤ d && d ≤ daysInMonth y mo &&
          h ≤ 23 && mi ≤ 59 && sec ≤ 59 then
        some (toTimestamp y mo d h mi sec)
      else
        none
    else
      none
  | _ => none

/-- Stem of a file name, as a character list:
`file.name.split(".")[0]` of main.py line 28/58 is everything before the
first dot (the whole name when there is no dot). -/
def stem (name : String) : List Char := name.toList.takeWhile (fun c => c != '.')

/-- First fifteen characters of the stem: the `[:15]` slice of main.py
line 28 that `strptime` is applied to. -/
def timestampSection (name : String) : List Char := (stem name).take 15

/-! ## Duration probe (probe.py lines 64-86, main.py lines 69-72)

`PROBE.get_media_duration` runs ffprobe, raises when the exit code is not
zero, and otherwise parses the stripped standard output with
`int(round(float(out), 0))`; `Video.__init__` catches every exception and
records `None`. The probe process itself is external, so its exit code and
standard output are explicit inputs of the model. -/

/-- Python's `str.strip()`: drop the whitespace at both ends. -/
def strip (cs : List Char) : List Char :=
  ((cs.dropWhile Char.isWhitespace).reverse.dropWhile Char.isWhitespace).reverse

/-- Parse of `int(round(float(s), 0))` on ffprobe's duration line: optional
integer digits, an optional dot, optional fraction digits (at least one
digit in all), rounded half to even as Python's `round` does; `none`
exactly when `float(s)` raises on such output. Exotic spellings `float`
also accepts (exponents, infinities) never occur as ffprobe duration
output and are modelled as unparseable. -/
def parse_duration_output (s : String) : Option Nat :=
  let t := strip s.toList
  let ip := t.takeWhile Char.isDigit
  let rest := t.dropWhile Char.isDigit
  match rest with
  | [] =>
    if ip.isEmpty then none else some (digitsVal ip)
  | '.' :: fp =>
    if fp.all Char.isDigit && !(ip.isEmpty && fp.isEmpty) then
      let i := digitsVal ip
      let f := digitsVal fp
      let den := 10 ^ fp.length
      if 2 * f < den then some i
      else if 2 * f > den then some (i + 1)
      else if i % 2 == 0 then some i else some (i + 1)
    else
      none
  | _ => none

/-- Duration recorded by `Video.__init__` (main.py lines 69-72): `None`
when the probe process exits non-zero (probe.py line 46-47) or its output
does not parse as a number (the `except Exception` of main.py line 71),
the rounded number of seconds otherwise. -/
def get_media_duration (exitCode : Nat) (out : String) : Option Nat :=
  if exitCode != 0 then none else parse_duration_output out

/-! ## Files and groups -/

/-- One file of the input directory, before any processing: its name and
the outcome of the external ffprobe invocation on it (exit code and
standard output). -/
structure RawFile where
  name : String
  probe_exit : Nat
  probe_out : String
deriving DecidableEq, Repr

/-- The data `Video.__init__` (main.py lines 54-72) derives from a file: the
parsed capture timestamp, the view point (`"A" in file_name` means Front,
main.py lines 64-67), the motion tag (`"P" in file_name` means Parked,
lines 59-62) and the probed duration (`None` when probing failed). -/
structure PFile where
  ts : Int
  front : Bool
  parked : Bool
  dur : Option Nat
deriving DecidableEq, Repr

instance : Inhabited PFile := ⟨⟨0, false, false, none⟩⟩

/-- Parse a raw file into the data `Video` carries; `none` when
`datetime_from_file_name` raises (main.py lines 27-30, unguarded). -/
def parseFile (r : RawFile) : Option PFile :=
  (parse_datetime (timestampSection r.name)).map fun t =>
    { ts := t
      front := (stem r.name).contains 'A'
      parked := (stem r.name).contains 'P'
      dur := get_media_duration r.probe_exit r.probe_out }

/-- A `VideoGroup` (main.py lines 98-132): start and running end timestamp,
the Front and Back clip sequences in discovery order, and the final output
path (`None` until `make_video` records one). -/
structure VideoGroup where
  start_time : Int
  end_time : Int
  front_videos : List PFile
  back_videos : List PFile
  final_video : Option String
deriving DecidableEq, Repr

instance : Inhabited VideoGroup := ⟨⟨0, 0, [], [], none⟩⟩

/-- The two hour gap `datetime.timedelta(hours=2)` of main.py line 327, in
seconds. -/
def fixed_gap : Int := 7200

/-- `VideoGroup.add_video` (main.py lines 134-144): a clip whose duration
is `None` is dropped; otherwise it is appended to the Front or Back
sequence according to its view point. -/
def add_video (g : VideoGroup) (f : PFile) : VideoGroup :=
  match f.dur with
  | none => g
  | some _ =>
    if f.front then { g with front_videos := g.front_videos ++ [f] }
    else { g with back_videos := g.back_videos ++ [f] }

/-- `VideoGroup.__init__` called with `videos=[file]` (main.py
lines 333-338 with 108-132): start and end equal to the file's timestamp,
empty sequences, then one `add_video`. -/
def new_group (f : PFile) : VideoGroup :=
  add_video { start_time := f.ts, end_time := f.ts, front_videos := []
              back_videos := [], final_video := none } f

/-- The membership test of main.py line 327:
`file_datetime - datetime.timedelta(hours=2) < video.end_time`. -/
def accepts (f : PFile) (g : VideoGroup) : Bool :=
  f.ts - fixed_gap < g.end_time

/-- The inner `for video in videos` scan with `break` (main.py
lines 325-331): the first group whose window accepts the file gets its end
time set to the file's timestamp and receives the file through `add_video`;
`none` when no group accepts it. -/
def try_attach (f : PFile) : List VideoGroup → Option (List VideoGroup)
  | [] => none
  | g :: rest =>
    if accepts f g then
      some (add_video { g with end_time := f.ts } f :: rest)
    else
      (try_attach f rest).map (g :: ·)

/-- Body of the outer file loop of `get_videos` (main.py lines 321-338):
attach the file to the first accepting group, or append a fresh group. -/
def process_file (gs : List VideoGroup) (f : PFile) : List VideoGroup :=
  match try_attach f gs with
  | some gs' => gs'
  | none => gs ++ [new_group f]

/-- `get_videos` (main.py lines 317-340) on files whose timestamps already
parsed: fold the per-file step over the discovery-ordered list. -/
def get_videos (files : List PFile) : List VideoGroup :=
  files.foldl process_file []

/-- `get_videos` on raw files, timestamp parsing included: the first file
whose name does not parse raises an unguarded exception, modelled as
`none`, and no group list is produced. -/
def get_videos_raw (files : List RawFile) : Option (List VideoGroup) :=
  files.foldlM (fun gs r => (parseFile r).map (process_file gs)) []

/-! ## Spec-side formulation of the grouping step

Stated from the claim's words (first accepting group in creation order,
end timestamp advanced, file appended by view point when its duration is
known, fresh group otherwise) rather than from the scan-with-break of the
source, to be compared with `process_file`. -/

/-- Append a file to a group by view point, provided its duration probe
succeeded. -/
def spec_append (g : VideoGroup) (f : PFile) : VideoGroup :=
  if f.dur.isSome then
    if f.front then { g with front_videos := g.front_videos ++ [f] }
    else { g with back_videos := g.back_videos ++ [f] }
  else g

/-- One grouping step as the claim words it: find the first group in
creation order whose current end timestamp is within the fixed gap,
advance its end timestamp to the file's timestamp and append the file to
it by view point; when no group accepts the file, append a fresh group
with start and end equal to the file's timestamp holding just that file
(nothing when the file's duration is unknown). -/
def spec_step (gs : List VideoGroup) (f : PFile) : List VideoGroup :=
  match gs.findIdx? (accepts f) with
  | some i => gs.set i (spec_append { gs.getD i default with end_time := f.ts } f)
  | none =>
    gs ++ [spec_append { start_time := f.ts, end_time := f.ts, front_videos := []
                         back_videos := [], final_video := none } f]

/-! ## Batching (`VideoGroup.make_video`, main.py lines 180-189) -/

/-- The batch slicing `[lst[i:i+4] for i in range(0, len(lst), 4)]` of
main.py lines 181-184: consecutive chunks of four, the last possibly
shorter (written with explicit patterns so the recursion is structural). -/
def chunk4 {α : Type} : List α → List (List α)
  | [] => []
  | [a] => [[a]]
  | [a, b] => [[a, b]]
  | [a, b, c] => [[a, b, c]]
  | a :: b :: c :: d :: rest => [a, b, c, d] :: chunk4 rest

/-- The paired-and-chunked clips of a group:
`list(zip(self.front_videos, self.back_videos))` sliced into batches of
four (main.py lines 180-184). -/
def batches (front back : List PFile) : List (List (PFile × PFile)) :=
  chunk4 (front.zip back)

/-- The intermediate file names accumulated by the batch loop (main.py
lines 186-189): one name per batch, indexed in order. -/
def batch_files (title : String) (front back : List PFile) : List String :=
  (List.range (batches front back).length).map
    (fun i => title ++ "_" ++ toString i ++ ".mp4")

/-! ## Rendering (`VideoGroup.make_video`, main.py lines 173-252)

The encoder is an external process; the exit code of the n-th encoder
invocation of a `make_video` call is an explicit oracle `e : Nat → Nat`
(invocations 0, ..., batches-1 are the per-chunk renders through
`FFMPEG.run`, invocation `batches` is the final merge through
`subprocess.Popen`). `FFMPEG.run` (ffmpeg.py lines 708-726) raises
`RuntimeError` on a non-zero exit; the final merge (main.py lines 249-250)
is waited on and its return code is never examined. -/

/-- The `DEBUG` flag of main.py line 15. -/
def DEBUG : Bool := false

/-- Outcome of one `make_video` call: how many per-chunk encoder
invocations ran, whether the final merge invocation ran, whether an
exception propagated out of the call, and the `final_video` path the call
recorded (main.py line 252), `none` when it recorded nothing. -/
structure RenderResult where
  chunk_runs : Nat
  merge_run : Bool
  raised : Bool
  final_video : Option String
deriving DecidableEq, Repr

/-- The per-chunk render loop (main.py lines 187-226) over `n` batches
starting at invocation index `i`: each batch runs the encoder once;
`FFMPEG.run` raises on a non-zero exit, aborting the loop. Returns the
number of invocations performed (the failing one included) and whether the
loop raised. -/
def run_batches (e : Nat → Nat) : Nat → Nat → Nat × Bool
  | _, 0 => (0, false)
  | i, n + 1 =>
    if e i != 0 then (1, true)
    else
      let r := run_batches e (i + 1) n
      (r.1 + 1, r.2)

/-- `VideoGroup.make_video` (main.py lines 173-252). `title` is the
group's title string (line 132; its content never matters here), `front`
and `back` the group's clip sequences, `fs` the names of the files that
exist on the filesystem, `e` the exit-code oracle. The call skips
everything when the final output file already exists (lines 176-178);
otherwise it renders the batches in order — a non-zero exit raises out of
the call (remaining batches and the merge never run, nothing recorded) —
and then always performs the final merge and records the final output
path, its exit code unexamined (lines 249-252). -/
def make_video (title : String) (front back : List PFile) (fs : List String)
    (e : Nat → Nat) : RenderResult :=
  let final_output_file := title ++ ".mp4"
  if fs.contains final_output_file && !DEBUG then
    { chunk_runs := 0, merge_run := false, raised := false, final_video := none }
  else
    let r := run_batches e 0 (batches front back).length
    if r.2 then
      { chunk_runs := r.1, merge_run := false, raised := true, final_video := none }
    else
      { chunk_runs := r.1, merge_run := true, raised := false
        final_video := some final_output_file }

/-- The `__main__` render loop (main.py lines 348-350): groups are rendered
in order; an exception raised by one `make_video` propagates out of the
`for` loop, so the remaining groups are never attempted. Groups are given
as (title, front clips, back clips); `e` gives each group its own
exit-code oracle by position, `i` is the position of the first group.
Returns the outcomes of the attempted calls in order. -/
def render_loop (fs : List String) (e : Nat → Nat → Nat) :
    List (String × List PFile × List PFile) → Nat → List RenderResult
  | [], _ => []
  | g :: rest, i =>
    let r := make_video g.1 g.2.1 g.2.2 fs (e i)
    if r.raised then [r] else r :: render_loop fs e rest (i + 1)

/-! ## The `FFMPEG.concat` filter builder (ffmpeg.py lines 620-646) -/

/-- Python truthiness of an optional string argument: `None` and the empty
string are falsy. -/
def pyTruthy : Option String → Bool
  | none => false
  | some s => s != ""

/-- Rendering of an optional string inside an f-string: `None` prints as
the literal `None`. -/
def ostr : Option String → String
  | none => "None"
  | some s => s

/-- The filter fragment `FFMPEG.concat` appends (ffmpeg.py lines 620-646),
translated statement by statement: per input pair a video label when
`output_video` is truthy and an audio label when `output_audio` is truthy,
then `concat=n=<len>:`, then the branch ladder whose first guard tests
`output_audio and output_audio` (sic, line 638). -/
def concat_filter (input : List (String × String))
    (output_video output_audio : Option String) : String :=
  let f := input.foldl (fun acc i =>
    let acc := if pyTruthy output_video then acc ++ "[" ++ i.1 ++ "]" else acc
    let acc := if pyTruthy output_audio then acc ++ "[" ++ i.2 ++ "]" else acc
    acc) ""
  let f := f ++ "concat=n=" ++ toString input.length ++ ":"
  if pyTruthy output_audio && pyTruthy output_audio then
    f ++ "v=1:a=1[" ++ ostr output_video ++ "][" ++ ostr output_audio ++ "];"
  else if pyTruthy output_video then
    f ++ "v=1[" ++ ostr output_video ++ "];"
  else if pyTruthy output_audio then
    f ++ "a=1[" ++ ostr output_audio ++ "];"
  else
    f

/-- The same builder with the audio-only branch (`elif output_audio:`,
ffmpeg.py lines 642-643) deleted; used to state that this branch is dead
code. -/
def concat_filter_no_audio_only (input : List (String × String))
    (output_video output_audio : Option String) : String :=
  let f := input.foldl (fun acc i =>
    let acc := if pyTruthy output_video then acc ++ "[" ++ i.1 ++ "]" else acc
    let acc := if pyTruthy output_audio then acc ++ "[" ++ i.2 ++ "]" else acc
    acc) ""
  let f := f ++ "concat=n=" ++ toString input.length ++ ":"
  if pyTruthy output_audio && pyTruthy output_audio then
    f ++ "v=1:a=1[" ++ ostr output_video ++ "][" ++ ostr output_audio ++ "];"
  else if pyTruthy output_video then
    f ++ "v=1[" ++ ostr output_video ++ "];"
  else
    f

/-- Invariant of the scan's output: every clip stored in a group's Front or
Back sequence has a known duration (`add_video` dropped the others). -/
def GroupsDurKnown (gs : List VideoGroup) : Prop :=
  ∀ g ∈ gs, ∀ v : PFile, (v ∈ g.front_videos ∨ v ∈ g.back_videos) → v.dur.isSome

/-! ## Lemmas about the grouping scan -/

/-- The `add_video` of the source appends exactly what the spec-side
`spec_append` appends. -/
theorem add_video_eq_spec_append (g : VideoGroup) (f : PFile) :
    add_video g f = spec_append g f := by
  cases h : f.dur <;> simp [add_video, spec_append, h]

/-- The scan-with-break over the group list attaches the file at the first
accepting index, in `findIdx?` terms. -/
theorem try_attach_eq (f : PFile) (gs : List VideoGroup) :
    try_attach f gs =
      match gs.findIdx? (accepts f) with
      | some i =>
        some (gs.set i (add_video { gs.getD i default with end_time := f.ts } f))
      | none => none := by
  induction gs with
  | nil => rfl
  | cons g rest ih =>
    by_cases hacc : accepts f g
    · simp [try_attach, hacc, List.findIdx?_cons]
    · simp only [try_attach, hacc, if_neg, Bool.not_eq_true, List.findIdx?_cons,
        List.findIdx?_succ, ih]
      cases hfind : rest.findIdx? (accepts f) with
      | none => simp [hacc, hfind]
      | some i => simp [hacc, hfind]

/-- The per-file step of `get_videos` equals the claim-side step. -/
theorem process_file_eq_spec_step (gs : List VideoGroup) (f : PFile) :
    process_file gs f = spec_step gs f := by
  unfold process_file spec_step
  rw [try_attach_eq]
  cases hfind : gs.findIdx? (accepts f) with
  | none => simp [new_group, add_video_eq_spec_append]
  | some i => simp [add_video_eq_spec_append]

/-- Groups every one of which rejects the file are passed over by the scan:
the scan continues into the remainder of the list. -/
theorem try_attach_append_of_rejects (f : PFile) (gs tl : List VideoGroup)
    (h : ∀ g ∈ gs, accepts f g = false) :
    try_attach f (gs ++ tl) = (try_attach f tl).map (gs ++ ·) := by
  induction gs with
  | nil =>
    simp
  | cons g rest ih =>
    have hg : accepts f g = false := h g (List.mem_cons_self g rest)
    have hrest : ∀ g ∈ rest, accepts f g = false :=
      fun g hgm => h g (List.mem_cons_of_mem _ hgm)
    cases htl : try_attach f tl with
    | none => simp [try_attach, hg, ih hrest, htl]
    | some gs' => simp [try_attach, hg, ih hrest, htl]

/-! ## Theorems for the grouping claims -/

/-- C1, counterexample to the claim as stated: a file whose duration probe
failed still creates (or is routed to) a group, but the group does not
contain it — a fresh group created for such a file has empty Front and
Back sequences, not "only that file", and attaching such a file to an
existing group appends nothing. -/
theorem c1_counterexample :
    get_videos [⟨0, true, false, none⟩] =
      [{ start_time := 0, end_time := 0, front_videos := [], back_videos := []
         final_video := none }] ∧
    get_videos [⟨0, true, false, none⟩] ≠
      [{ start_time := 0, end_time := 0, front_videos := [⟨0, true, false, none⟩]
         back_videos := [], final_video := none }] ∧
    process_file
        [{ start_time := 0, end_time := 100, front_videos := [], back_videos := []
           final_video := none }] ⟨50, true, false, none⟩ =
      [{ start_time := 0, end_time := 50, front_videos := [], back_videos := []
         final_video := none }] := by
  refine ⟨rfl, ?_, rfl⟩
  decide

/-- C1 (amended): each file with a parseable timestamp is routed to the
first group in creation order whose current end timestamp satisfies
`file_timestamp - 2h < end`; on attach the group's end timestamp becomes
the file's timestamp and the file is appended to the group's view-point
sequence when its duration probe succeeded (a probe-failed file advances
the window without being appended); when no group accepts the file, a new
group with start = end = the file's timestamp is appended, containing only
that file when the probe succeeded and nothing otherwise. Stated as:
the source's scan equals the fold of the claim-side step `spec_step`. -/
theorem get_videos_eq_spec (files : List PFile) :
    get_videos files = files.foldl spec_step [] := by
  have h : process_file = spec_step :=
    funext fun gs => funext fun f => process_file_eq_spec_step gs f
  rw [get_videos, h]

/-- C3, counterexample to the claim as stated: a file whose duration probe
failed does advance the end timestamp of the group that accepts it (from
100 to the file's timestamp 200 here). -/
theorem c3_counterexample :
    process_file
        [{ start_time := 0, end_time := 100, front_videos := [], back_videos := []
           final_video := none }] ⟨200, true, false, none⟩ =
      [{ start_time := 0, end_time := 200, front_videos := [], back_videos := []
         final_video := none }] ∧
    (200 : Int) ≠ 100 := by
  exact ⟨rfl, by decide⟩

/-- C3 (amended): a probe-failed file is appended to no group's Front or
Back sequence — every group's sequences are left unchanged — but the first
accepting group's end timestamp is advanced to the file's timestamp; when
no group accepts it, a fresh group with empty sequences is appended. -/
theorem process_file_probe_failed (gs : List VideoGroup) (f : PFile)
    (h : f.dur = none) :
    process_file gs f =
      match gs.findIdx? (accepts f) with
      | some i => gs.set i { gs.getD i default with end_time := f.ts }
      | none =>
        gs ++ [{ start_time := f.ts, end_time := f.ts, front_videos := []
                 back_videos := [], final_video := none }] := by
  rw [process_file_eq_spec_step]
  unfold spec_step
  cases hfind : gs.findIdx? (accepts f) with
  | none => simp [spec_append, h]
  | some i => simp [spec_append, h]

/-- Witness for C3's amended theorem at a concrete input: one existing
group with end timestamp 100, a probe-failed file at timestamp 200. -/
theorem process_file_probe_failed_witness :
    process_file
        [{ start_time := 0, end_time := 100, front_videos := [], back_videos := []
           final_video := none }] ⟨200, false, false, none⟩ =
      [{ start_time := 0, end_time := 200, front_videos := [], back_videos := []
         final_video := none }] :=
  (process_file_probe_failed
      [{ start_time := 0, end_time := 100, front_videos := [], back_videos := []
         final_video := none }] ⟨200, false, false, none⟩ rfl).trans (by decide)

/-- C9: a probe-failed file whose timestamp no existing group's window
accepts still creates a new group with start and end equal to its
timestamp and empty Front and Back sequences; the empty group remains in
the scan's output, and a later file with a known duration falling within
two hours of the empty group's end (and rejected by all earlier groups) is
attached to it. -/
theorem empty_group_accepts_later (gs : List VideoGroup) (f f2 : PFile)
    (hdur : f.dur = none) (hrej : ∀ g ∈ gs, accepts f g = false)
    (hdur2 : f2.dur.isSome) (hacc2 : f2.ts - fixed_gap < f.ts)
    (hrej2 : ∀ g ∈ gs, accepts f2 g = false) :
    process_file gs f =
      gs ++ [{ start_time := f.ts, end_time := f.ts, front_videos := []
               back_videos := [], final_video := none }] ∧
    process_file
        (gs ++ [{ start_time := f.ts, end_time := f.ts, front_videos := []
                  back_videos := [], final_video := none }]) f2 =
      gs ++ [{ start_time := f.ts, end_time := f2.ts
               front_videos := if f2.front then [f2] else []
               back_videos := if f2.front then [] else [f2]
               final_video := none }] := by
  constructor
  · unfold process_file
    have h1 : try_attach f gs = none := by
      have := try_attach_append_of_rejects f gs [] hrej
      simpa using this
    simp [h1, new_group, add_video, hdur]
  · unfold process_file
    rw [try_attach_append_of_rejects f2 gs _ hrej2]
    have haccepts : accepts f2
        { start_time := f.ts, end_time := f.ts, front_videos := []
          back_videos := [], final_video := none } = true := by
      simp [accepts, hacc2]
    simp only [try_attach, haccepts, if_pos, Option.map_some]
    cases hd : f2.dur with
    | none => rw [hd] at hdur2; simp at hdur2
    | some d =>
      cases hfront : f2.front <;> simp [add_video, hd, hfront]

/-- Witness for C9 at a concrete input: one existing group far in the
past (end timestamp -20000) rejects both files; the probe-failed file at
timestamp 0 creates an empty group, which then accepts a Back file with
known duration at timestamp 100. -/
theorem empty_group_accepts_later_witness :
    process_file
        [{ start_time := -20000, end_time := -20000, front_videos := []
           back_videos := [], final_video := none }] ⟨0, true, false, none⟩ =
      [{ start_time := -20000, end_time := -20000, front_videos := []
         back_videos := [], final_video := none },
       { start_time := 0, end_time := 0, front_videos := [], back_videos := []
         final_video := none }] ∧
    process_file
        [{ start_time := -20000, end_time := -20000, front_videos := []
           back_videos := [], final_video := none },
         { start_time := 0, end_time := 0, front_videos := [], back_videos := []
           final_video := none }] ⟨100, false, false, some 60⟩ =
      [{ start_time := -20000, end_time := -20000, front_videos := []
         back_videos := [], final_video := none },
       { start_time := 0, end_time := 100, front_videos := []
         back_videos := [⟨100, false, false, some 60⟩], final_video := none }] := by
  have h := empty_group_accepts_later
    [{ start_time := -20000, end_time := -20000, front_videos := []
       back_videos := [], final_video := none }]
    ⟨0, true, false, none⟩ ⟨100, false, false, some 60⟩
    rfl (by decide) rfl (by decide) (by decide)
  exact ⟨h.1.trans (by decide), h.2.trans (by decide)⟩

/-- C7: an input list containing a file whose timestamp section does not
parse makes the whole scan raise: no group list is returned for any of the
files. -/
theorem get_videos_raw_aborts (files : List RawFile)
    (h : ∃ r ∈ files, parse_datetime (timestampSection r.name) = none) :
    get_videos_raw files = none := by
  suffices step : ∀ (l : List RawFile) (gs : List VideoGroup),
      (∃ r ∈ l, parse_datetime (timestampSection r.name) = none) →
      l.foldlM (fun gs r => (parseFile r).map (process_file gs)) gs = none by
    exact step files [] h
  intro l
  induction l with
  | nil => intro gs h; simp at h
  | cons r rest ih =>
    intro gs h
    rw [List.foldlM_cons]
    cases hp : parseFile r with
    | none => simp [hp]
    | some p =>
      have hr : parse_datetime (timestampSection r.name) ≠ none := by
        intro hc
        simp [parseFile, hc] at hp
      rcases h with ⟨r', hmem, hpr⟩
      rcases List.mem_cons.mp hmem with rfl | hmem'
      · exact absurd hpr hr
      · exact ih (process_file gs p) ⟨r', hmem', hpr⟩

/-- Witness for C7 at a concrete input: a file named `hello.mp4` (its
timestamp section does not parse) aborts the scan even though a
well-formed file follows it. -/
theorem get_videos_raw_aborts_witness :
    get_videos_raw [⟨"hello.mp4", 0, "60"⟩, ⟨"20220101_120000_A.MP4", 0, "60"⟩] =
      none :=
  get_videos_raw_aborts
    [⟨"hello.mp4", 0, "60"⟩, ⟨"20220101_120000_A.MP4", 0, "60"⟩]
    ⟨⟨"hello.mp4", 0, "60"⟩, List.mem_cons_self _ _, by decide⟩

/-! ## The duration-known invariant (claim C8) -/

/-- A clip found in a group after one append came either from the group or
is the appended file, and then only with a known duration. -/
theorem mem_spec_append {g : VideoGroup} {f v : PFile}
    (h : v ∈ (spec_append g f).front_videos ∨ v ∈ (spec_append g f).back_videos) :
    (v ∈ g.front_videos ∨ v ∈ g.back_videos) ∨ (v = f ∧ f.dur.isSome) := by
  cases hd : f.dur.isSome with
  | false =>
    rw [spec_append, hd] at h
    exact Or.inl h
  | true =>
    cases hf : f.front with
    | true =>
      rw [spec_append, hd, hf] at h
      have h' : v ∈ g.front_videos ++ [f] ∨ v ∈ g.back_videos := h
      rcases h' with h' | h'
      · rcases List.mem_append.mp h' with h' | h'
        · exact Or.inl (Or.inl h')
        · exact Or.inr ⟨List.mem_singleton.mp h', rfl⟩
      · exact Or.inl (Or.inr h')
    | false =>
      rw [spec_append, hd, hf] at h
      have h' : v ∈ g.front_videos ∨ v ∈ g.back_videos ++ [f] := h
      rcases h' with h' | h'
      · exact Or.inl (Or.inl h')
      · rcases List.mem_append.mp h' with h' | h'
        · exact Or.inl (Or.inr h')
        · exact Or.inr ⟨List.mem_singleton.mp h', rfl⟩

/-- One scan step preserves the duration-known invariant. -/
theorem process_file_dur_known {gs : List VideoGroup} (f : PFile)
    (h : GroupsDurKnown gs) : GroupsDurKnown (process_file gs f) := by
  rw [process_file_eq_spec_step]
  unfold spec_step
  cases hfind : gs.findIdx? (accepts f) with
  | some i =>
    intro g hg v hv
    rcases List.mem_or_eq_of_mem_set hg with hg' | rfl
    · exact h g hg' v hv
    · have hlt : i < gs.length :=
        (List.findIdx?_eq_some_iff_findIdx_eq.mp hfind).1
      have hgd : gs.getD i default = gs[i] := by
        rw [List.getD_eq_getElem?_getD, List.getElem?_eq_getElem hlt]
        rfl
      rcases mem_spec_append hv with hins | ⟨rfl, hd⟩
      · have hmem : gs[i] ∈ gs := List.getElem_mem hlt
        rw [hgd] at hins
        exact h _ hmem v hins
      · exact hd
  | none =>
    intro g hg v hv
    rcases List.mem_append.mp hg with hg' | hg'
    · exact h g hg' v hv
    · rw [List.mem_singleton] at hg'
      subst hg'
      rcases mem_spec_append hv with hins | ⟨rfl, hd⟩
      · simp at hins
      · exact hd

/-- Every clip stored in any group of the scan's output has a known
duration. -/
theorem get_videos_dur_known (files : List PFile) :
    GroupsDurKnown (get_videos files) := by
  unfold get_videos
  suffices aux : ∀ gs, GroupsDurKnown gs →
      GroupsDurKnown (files.foldl process_file gs) by
    exact aux [] (by intro g hg; simp at hg)
  induction files with
  | nil => intro gs hgs; exact hgs
  | cons f rest ih =>
    intro gs hgs
    exact ih (process_file gs f) (process_file_dur_known f hgs)

/-- C8: a clip whose duration probe exits non-zero or produces unparseable
output has its duration recorded as unknown (`None`), and such a clip is
absent from every group's Front and Back sequences in the scan's output. -/
theorem probe_failure_excludes (exitCode : Nat) (out : String) (p : PFile)
    (h : exitCode ≠ 0 ∨ parse_duration_output out = none)
    (hp : p.dur = get_media_duration exitCode out) :
    get_media_duration exitCode out = none ∧
    ∀ (files : List PFile), ∀ g ∈ get_videos files,
      p ∉ g.front_videos ∧ p ∉ g.back_videos := by
  have hnone : get_media_duration exitCode out = none := by
    rcases h with h | h
    · simp [get_media_duration, h]
    · unfold get_media_duration
      rw [h]
      exact ite_self none
  refine ⟨hnone, ?_⟩
  intro files g hg
  have hdur := get_videos_dur_known files g hg
  constructor
  · intro hmem
    have hk := hdur p (Or.inl hmem)
    rw [hp, hnone] at hk
    simp at hk
  · intro hmem
    have hk := hdur p (Or.inr hmem)
    rw [hp, hnone] at hk
    simp at hk

/-- Witness for C8 at a concrete input: ffprobe exiting 1 with output
`N/A` yields an unknown duration, and the resulting clip appears in no
group of any scan. -/
theorem probe_failure_excludes_witness :
    get_media_duration 1 "N/A" = none ∧
    ∀ (files : List PFile), ∀ g ∈ get_videos files,
      (⟨0, true, false, none⟩ : PFile) ∉ g.front_videos ∧
      (⟨0, true, false, none⟩ : PFile) ∉ g.back_videos :=
  probe_failure_excludes 1 "N/A" ⟨0, true, false, none⟩ (Or.inl (by decide)) rfl

/-! ## Lemmas about pairing and batching (claim C2) -/

/-- First components of a zip: the first list cut to the second's length. -/
theorem zip_map_fst {α β : Type} (l1 : List α) (l2 : List β) :
    (l1.zip l2).map Prod.fst = l1.take l2.length := by
  induction l1 generalizing l2 with
  | nil => simp
  | cons a t ih => cases l2 <;> simp [ih]

/-- Second components of a zip: the second list cut to the first's length. -/
theorem zip_map_snd {α β : Type} (l1 : List α) (l2 : List β) :
    (l1.zip l2).map Prod.snd = l2.take l1.length := by
  induction l1 generalizing l2 with
  | nil => simp
  | cons a t ih => cases l2 <;> simp [ih]

/-- The chunks concatenate back to the original list. -/
theorem chunk4_flatten {α : Type} (l : List α) : (chunk4 l).flatten = l := by
  induction l using chunk4.induct with
  | case1 => rfl
  | case2 a => rfl
  | case3 a b => rfl
  | case4 a b c => rfl
  | case5 a b c d rest ih => simp [chunk4, ih]

/-- Every chunk is non-empty and holds at most four elements. -/
theorem chunk4_mem_length {α : Type} {l : List α} {ch : List α}
    (h : ch ∈ chunk4 l) : 0 < ch.length ∧ ch.length ≤ 4 := by
  induction l using chunk4.induct with
  | case1 => simp [chunk4] at h
  | case2 a => simp [chunk4] at h; subst h; simp
  | case3 a b => simp [chunk4] at h; subst h; simp
  | case4 a b c => simp [chunk4] at h; subst h; simp
  | case5 a b c d rest ih =>
    rcases List.mem_cons.mp h with rfl | h'
    · simp
    · exact ih h'

/-- The chunk list is empty exactly for the empty list. -/
theorem chunk4_eq_nil_iff {α : Type} {l : List α} : chunk4 l = [] ↔ l = [] := by
  cases l with
  | nil => simp [chunk4]
  | cons a t =>
    cases t with
    | nil => simp [chunk4]
    | cons b t' =>
      cases t' with
      | nil => simp [chunk4]
      | cons c t'' =>
        cases t'' with
        | nil => simp [chunk4]
        | cons d rest => simp [chunk4]

/-- Every chunk except the last holds exactly four elements. -/
theorem chunk4_dropLast_length {α : Type} {l : List α} {ch : List α}
    (h : ch ∈ (chunk4 l).dropLast) : ch.length = 4 := by
  induction l using chunk4.induct with
  | case1 => simp [chunk4] at h
  | case2 a => simp [chunk4] at h
  | case3 a b => simp [chunk4] at h
  | case4 a b c => simp [chunk4] at h
  | case5 a b c d rest ih =>
    rw [chunk4] at h
    cases hrest : chunk4 rest with
    | nil => rw [hrest] at h; simp at h
    | cons q qs =>
      rw [hrest] at h
      rw [List.dropLast_cons₂] at h
      rcases List.mem_cons.mp h with rfl | h'
      · rfl
      · exact ih (hrest ▸ h')

/-- The number of chunks is the length divided by four, rounded up. -/
theorem chunk4_length {α : Type} (l : List α) :
    (chunk4 l).length = (l.length + 3) / 4 := by
  induction l using chunk4.induct with
  | case1 => simp [chunk4]
  | case2 a => simp [chunk4]
  | case3 a b => simp [chunk4]
  | case4 a b c => simp [chunk4]
  | case5 a b c d rest ih =>
    simp only [chunk4, List.length_cons, ih]
    omega

/-- C2: the render step pairs the Front and Back sequences index-wise into
exactly `min(F, B)` pairs preserving discovery order (excess clips of the
longer sequence are dropped), partitions the pairs into consecutive chunks
whose concatenation is the paired sequence, every chunk has at most four
pairs and only the last chunk is shorter, and the number of chunks — and
hence of intermediate batch files — is `ceil(min(F, B) / 4)`. -/
theorem batches_spec (title : String) (front back : List PFile) :
    (front.zip back).length = min front.length back.length ∧
    (front.zip back).map Prod.fst = front.take back.length ∧
    (front.zip back).map Prod.snd = back.take front.length ∧
    (∀ (i : Nat) (a b : PFile), front[i]? = some a → back[i]? = some b →
      (front.zip back)[i]? = some (a, b)) ∧
    (batches front back).flatten = front.zip back ∧
    (∀ ch ∈ batches front back, 0 < ch.length ∧ ch.length ≤ 4) ∧
    (∀ ch ∈ (batches front back).dropLast, ch.length = 4) ∧
    (batches front back).length = (min front.length back.length + 3) / 4 ∧
    (batch_files title front back).length =
      (min front.length back.length + 3) / 4 := by
  refine ⟨List.length_zip front back, zip_map_fst front back, zip_map_snd front back,
    ?_, chunk4_flatten (front.zip back), ?_, ?_, ?_, ?_⟩
  · intro i a b ha hb
    exact List.getElem?_zip_eq_some.mpr ⟨ha, hb⟩
  · intro ch hch
    exact chunk4_mem_length hch
  · intro ch hch
    exact chunk4_dropLast_length hch
  · rw [batches, chunk4_length, List.length_zip]
  · rw [batch_files, List.length_map, List.length_range, batches,
      chunk4_length, List.length_zip]

/-! ## Lemmas about the render step (claims C4, C5, C6) -/

/-- When every encoder invocation of the batch loop exits zero, the loop
runs all the batches and nothing is raised. -/
theorem run_batches_all_zero (e : Nat → Nat) :
    ∀ (n i0 : Nat), (∀ j, j < n → e (i0 + j) = 0) →
      run_batches e i0 n = (n, false) := by
  intro n
  induction n with
  | zero => intro i0 h; rfl
  | succ m ih =>
    intro i0 h
    have h0 : e i0 = 0 := by
      have := h 0 (Nat.succ_pos m)
      simpa using this
    have hshift : ∀ j, j < m → e (i0 + 1 + j) = 0 := by
      intro j hj
      have h2 := h (j + 1) (Nat.succ_lt_succ hj)
      have h3 : i0 + (j + 1) = i0 + 1 + j := by omega
      rwa [h3] at h2
    simp [run_batches, h0, ih (i0 + 1) hshift]

/-- When the `i`-th encoder invocation is the first to exit non-zero, the
batch loop performs `i + 1` invocations and raises. -/
theorem run_batches_first_fail (e : Nat → Nat) :
    ∀ (n i0 i : Nat), i < n → (∀ j, j < i → e (i0 + j) = 0) →
      e (i0 + i) ≠ 0 → run_batches e i0 n = (i + 1, true) := by
  intro n
  induction n with
  | zero => intro i0 i hi; exact absurd hi (Nat.not_lt_zero i)
  | succ m ih =>
    intro i0 i hi hz hnz
    cases i with
    | zero =>
      have h0 : e i0 ≠ 0 := by simpa using hnz
      simp [run_batches, h0]
    | succ k =>
      have h0 : e i0 = 0 := by
        have := hz 0 (Nat.succ_pos k)
        simpa using this
      have hshift : ∀ j, j < k → e (i0 + 1 + j) = 0 := by
        intro j hj
        have h2 := hz (j + 1) (Nat.succ_lt_succ hj)
        have h3 : i0 + (j + 1) = i0 + 1 + j := by omega
        rwa [h3] at h2
      have hnz' : e (i0 + 1 + k) ≠ 0 := by
        have h3 : i0 + (k + 1) = i0 + 1 + k := by omega
        rwa [h3] at hnz
      have hk : k < m := Nat.lt_of_succ_lt_succ hi
      simp [run_batches, h0, ih (i0 + 1) k hk hshift hnz']

/-- C4: when the group's final output file already exists, `make_video`
returns immediately: no per-chunk encoder invocation and no merge
invocation is performed and nothing is recorded — and since nothing is
performed, a second invocation in a row (with any exit-code oracle) again
renders nothing. -/
theorem make_video_idempotent (title : String) (front back : List PFile)
    (fs : List String) (e e2 : Nat → Nat)
    (h : fs.contains (title ++ ".mp4") = true) :
    make_video title front back fs e =
      { chunk_runs := 0, merge_run := false, raised := false
        final_video := none } ∧
    make_video title front back fs e2 =
      { chunk_runs := 0, merge_run := false, raised := false
        final_video := none } := by
  have hmem : (title ++ ".mp4") ∈ fs := by simpa using h
  constructor <;> simp [make_video, hmem, DEBUG]

/-- Witness for C4 at a concrete input: the final output `G.mp4` exists,
so both calls (with different oracles) perform zero invocations. -/
theorem make_video_idempotent_witness :
    make_video "G" [⟨0, true, false, some 5⟩] [⟨0, false, false, some 5⟩]
        ["G.mp4"] (fun _ => 0) =
      { chunk_runs := 0, merge_run := false, raised := false
        final_video := none } ∧
    make_video "G" [⟨0, true, false, some 5⟩] [⟨0, false, false, some 5⟩]
        ["G.mp4"] (fun _ => 1) =
      { chunk_runs := 0, merge_run := false, raised := false
        final_video := none } :=
  make_video_idempotent "G" [⟨0, true, false, some 5⟩]
    [⟨0, false, false, some 5⟩] ["G.mp4"] (fun _ => 0) (fun _ => 1) (by decide)

/-- C5, counterexample to the claim as stated: with one batch whose render
succeeds and a final merge invocation exiting 1, `make_video` still
performs the merge, raises nothing, and records the final output path as
produced — a non-zero exit of the merge invocation is not fatal. -/
theorem c5_counterexample :
    make_video "G" [⟨0, true, false, some 5⟩] [⟨0, false, false, some 5⟩] []
        (fun n => if n == 0 then 0 else 1) =
      { chunk_runs := 1, merge_run := true, raised := false
        final_video := some "G.mp4" } ∧
    (fun n : Nat => if n == 0 then (0 : Nat) else 1) 1 ≠ 0 := by
  exact ⟨by decide, by decide⟩

/-- C5 (amended): a non-zero exit of a per-chunk encoder invocation is
fatal for the group's render — the remaining chunks and the final merge
are not performed and no final output path is recorded; the final merge's
exit code, however, is never examined: once all chunks exit zero, the
merge invocation is performed and the final output path is recorded no
matter what the merge invocation's exit code is. -/
theorem make_video_failure_semantics (title : String) (front back : List PFile)
    (fs : List String) (e : Nat → Nat)
    (hskip : fs.contains (title ++ ".mp4") = false) :
    (∀ i, i < (batches front back).length → (∀ j, j < i → e j = 0) →
      e i ≠ 0 →
      make_video title front back fs e =
        { chunk_runs := i + 1, merge_run := false, raised := true
          final_video := none }) ∧
    ((∀ j, j < (batches front back).length → e j = 0) →
      make_video title front back fs e =
        { chunk_runs := (batches front back).length, merge_run := true
          raised := false, final_video := some (title ++ ".mp4") }) := by
  have hmem : (title ++ ".mp4") ∉ fs := by simpa using hskip
  constructor
  · intro i hi hz hnz
    have hr := run_batches_first_fail e (batches front back).length 0 i hi
      (by intro j hj; simpa using hz j hj) (by simpa using hnz)
    simp [make_video, hmem, hr]
  · intro hz
    have hr := run_batches_all_zero e (batches front back).length 0
      (by intro j hj; simpa using hz j hj)
    simp [make_video, hmem, hr]

/-- Witness for C5's amended theorem at a concrete input: one batch, all
chunk invocations exit zero, so the chunk renders, the merge runs and the
final output is recorded. -/
theorem make_video_failure_semantics_witness :
    make_video "G" [⟨0, true, false, some 5⟩] [⟨0, false, false, some 5⟩] []
        (fun _ => 0) =
      { chunk_runs := 1, merge_run := true, raised := false
        final_video := some "G.mp4" } :=
  ((make_video_failure_semantics "G" [⟨0, true, false, some 5⟩]
      [⟨0, false, false, some 5⟩] [] (fun _ => 0) rfl).2
    (fun _ _ => rfl)).trans (by decide)

/-- C6, counterexample to the claim as stated: two groups; the first
group's only chunk render exits 1, the raised `RuntimeError` propagates
out of the `for` loop, and the second group is never attempted — the
outcome list of the loop holds one entry, not two. -/
theorem c6_counterexample :
    render_loop [] (fun i _ => if i == 0 then 1 else 0)
        [("A", [⟨0, true, false, some 5⟩], [⟨0, false, false, some 5⟩]),
         ("B", [⟨0, true, false, some 5⟩], [⟨0, false, false, some 5⟩])] 0 =
      [{ chunk_runs := 1, merge_run := false, raised := true
         final_video := none }] ∧
    (render_loop [] (fun i _ => if i == 0 then 1 else 0)
        [("A", [⟨0, true, false, some 5⟩], [⟨0, false, false, some 5⟩]),
         ("B", [⟨0, true, false, some 5⟩], [⟨0, false, false, some 5⟩])]
        0).length < 2 := by
  exact ⟨by decide, by decide⟩

/-- C6 (amended): per-group failures are not isolated. The render loop
attempts groups in order, each attempted outcome is that group's
`make_video` result; all attempted groups but possibly the last raised
nothing, and whenever the loop stops before the end of the group list the
last attempted group's render raised — the groups after it are never
attempted. -/
theorem render_loop_aborts_on_raise (fs : List String) (e : Nat → Nat → Nat) :
    ∀ (gs : List (String × List PFile × List PFile)) (i : Nat),
      (render_loop fs e gs i).length ≤ gs.length ∧
      (∀ k r g, (render_loop fs e gs i)[k]? = some r → gs[k]? = some g →
        r = make_video g.1 g.2.1 g.2.2 fs (e (i + k))) ∧
      (∀ k r, k + 1 < (render_loop fs e gs i).length →
        (render_loop fs e gs i)[k]? = some r → r.raised = false) ∧
      ((render_loop fs e gs i).length < gs.length →
        ∃ r, (render_loop fs e gs i)[(render_loop fs e gs i).length - 1]? =
            some r ∧ r.raised = true) := by
  intro gs
  induction gs with
  | nil =>
    intro i
    refine ⟨Nat.le_refl 0, ?_, ?_, ?_⟩
    · intro k r g h1
      have h1' : (none : Option RenderResult) = some r := h1
      simp at h1'
    · intro k r h1
      have h1' : k + 1 < 0 := h1
      omega
    · intro h1
      have h1' : (render_loop fs e [] i).length < 0 := h1
      omega
  | cons g rest ih =>
    intro i
    obtain ⟨ih1, ih2, ih3, ih4⟩ := ih (i + 1)
    by_cases hr : (make_video g.1 g.2.1 g.2.2 fs (e i)).raised
    · have hloop : render_loop fs e (g :: rest) i =
          [make_video g.1 g.2.1 g.2.2 fs (e i)] := by
        simp [render_loop, hr]
      refine ⟨?_, ?_, ?_, ?_⟩ <;> rw [hloop]
      · simp
      · intro k r g' h1 h2
        cases k with
        | zero =>
          simp at h1 h2
          subst h1; subst h2
          rw [Nat.add_zero]
        | succ k' => simp at h1
      · intro k r hk
        simp at hk
      · intro hlen
        exact ⟨make_video g.1 g.2.1 g.2.2 fs (e i), by simp, hr⟩
    · have hloop : render_loop fs e (g :: rest) i =
          make_video g.1 g.2.1 g.2.2 fs (e i) :: render_loop fs e rest (i + 1) := by
        simp [render_loop, hr]
      refine ⟨?_, ?_, ?_, ?_⟩ <;> rw [hloop]
      · simpa using Nat.succ_le_succ ih1
      · intro k r g' h1 h2
        cases k with
        | zero =>
          simp at h1 h2
          subst h1; subst h2
          rw [Nat.add_zero]
        | succ k' =>
          rw [List.getElem?_cons_succ] at h1 h2
          have := ih2 k' r g' h1 h2
          have harith : i + 1 + k' = i + (k' + 1) := by omega
          rwa [harith] at this
      · intro k r hk h1
        cases k with
        | zero =>
          simp at h1
          subst h1
          simpa using hr
        | succ k' =>
          rw [List.getElem?_cons_succ] at h1
          simp only [List.length_cons] at hk
          exact ih3 k' r (Nat.lt_of_succ_lt_succ hk) h1
      · intro hlen
        simp only [List.length_cons] at hlen
        obtain ⟨r, hsome, hraised⟩ := ih4 (Nat.lt_of_succ_lt_succ hlen)
        cases hrl : (render_loop fs e rest (i + 1)) with
        | nil =>
          rw [hrl] at hsome
          simp at hsome
        | cons q qs =>
          rw [hrl] at hsome
          refine ⟨r, ?_, hraised⟩
          simpa using hsome

/-! ## The `concat` branch bug (claim C10) -/

/-- Reassociation through a merged string literal. -/
theorem str_merge (s t u x : String) (h : s ++ t = u) :
    u ++ x = s ++ (t ++ x) := by
  rw [← h, String.append_assoc]

/-- Folding a function that ignores the list element returns the initial
accumulator. -/
theorem foldl_acc_fixed {α β : Type} (l : List α) (b : β) :
    l.foldl (fun acc _ => acc) b = b := by
  induction l generalizing b with
  | nil => rfl
  | cons x t ih => exact ih b

/-- C10, counterexample to the claim as stated: at `output_video = None`
and `output_audio = ""` — non-None, but falsy to Python — every branch
guard of `FFMPEG.concat` is false, so the appended fragment is just
`concat=n=1:`; it contains neither `v=1:a=1` nor the literal `[None]`. -/
theorem c10_counterexample :
    concat_filter [("0:v", "0:a")] none (some "") = "concat=n=1:" ∧
    (some "" : Option String) ≠ none ∧
    ¬ ("v=1:a=1".toList <:+: "concat=n=1:".toList) ∧
    ¬ ("[None]".toList <:+: "concat=n=1:".toList) := by
  refine ⟨by decide, by decide, by decide, by decide⟩

/-- C10 (amended): calling `FFMPEG.concat` with `output_video = None` and
a truthy (non-None, non-empty) `output_audio` still appends a fragment
containing `v=1:a=1` and the literal label `[None]` (Python renders `None`
into the f-string), because the first branch guard tests
`output_audio and output_audio` instead of
`output_video and output_audio`; with `output_audio` the empty string —
non-None but falsy — no branch fires and the fragment is the bare
`concat=n=<len>:` header with no labels at all; and the audio-only form
(`a=1[...]`) is never emitted for any input — the builder behaves exactly
as if that branch were deleted. -/
theorem concat_none_video_bug (input : List (String × String)) (a : String) :
    (a ≠ "" →
      (∃ p q : String,
        concat_filter input none (some a) = p ++ "v=1:a=1" ++ q) ∧
      (∃ p q : String,
        concat_filter input none (some a) = p ++ "[None]" ++ q)) ∧
    (a = "" →
      concat_filter input none (some a) =
        "concat=n=" ++ toString input.length ++ ":") ∧
    (∀ (inp : List (String × String)) (ov oa : Option String),
      concat_filter inp ov oa = concat_filter_no_audio_only inp ov oa) := by
  refine ⟨?_, ?_, ?_⟩
  · intro ha
    have hb : (a != "") = true := bne_iff_ne.mpr ha
    constructor
    · refine ⟨input.foldl (fun acc i => acc ++ "[" ++ i.2 ++ "]") "" ++
        "concat=n=" ++ toString input.length ++ ":", "[None][" ++ a ++ "];", ?_⟩
      simp [concat_filter, pyTruthy, hb, ostr, String.append_assoc]
      rw [str_merge ":v=1:a=1" "[None][" ":v=1:a=1[None][" (a ++ "];")
        (by decide)]
    · refine ⟨input.foldl (fun acc i => acc ++ "[" ++ i.2 ++ "]") "" ++
        "concat=n=" ++ toString input.length ++ ":" ++ "v=1:a=1",
        "[" ++ a ++ "];", ?_⟩
      simp [concat_filter, pyTruthy, hb, ostr, String.append_assoc]
      rw [str_merge ":v=1:a=1[None]" "[" ":v=1:a=1[None][" (a ++ "];")
        (by decide)]
  · intro ha
    subst ha
    simp [concat_filter, pyTruthy, foldl_acc_fixed]
  · intro inp ov oa
    cases hoa : pyTruthy oa <;> cases hov : pyTruthy ov <;>
      simp [concat_filter, concat_filter_no_audio_only, hoa, hov]

/-- Witness for C10's amended theorem at concrete inputs: one input pair
with the audio label `front_a` (the truthy case, as `make_video` passes
for the Front concat) and with the empty audio label (the falsy case). -/
theorem concat_none_video_bug_witness :
    (("front_a" : String) ≠ "" →
      (∃ p q : String,
        concat_filter [("0:v", "0:a")] none (some "front_a") =
          p ++ "v=1:a=1" ++ q) ∧
      (∃ p q : String,
        concat_filter [("0:v", "0:a")] none (some "front_a") =
          p ++ "[None]" ++ q)) ∧
    (("" : String) = "" →
      concat_filter [("0:v", "0:a")] none (some "") =
        "concat=n=" ++ toString ([("0:v", "0:a")] : List (String × String)).length ++ ":") ∧
    (∀ (inp : List (String × String)) (ov oa : Option String),
      concat_filter inp ov oa = concat_filter_no_audio_only inp ov oa) :=
  ⟨(concat_none_video_bug [("0:v", "0:a")] "front_a").1,
   (concat_none_video_bug [("0:v", "0:a")] "").2.1,
   (concat_none_video_bug [] "").2.2⟩

end Vantrue
